import Mathlib

/-
Verification of the GpuGenerateCubinAccessorsPass
(src/third_party/mlir/lib/Conversion/GPUToCUDA/GenerateCubinAccessors.cpp).

The pass walks the immediate child modules of the top-level module, and for
each child flagged with the GPU kernel-module attribute it visits every
function carrying the "nvvm.cubin" string attribute.  For each such function
it resolves a same-named stub function in the top-level module, creates a
getter function right after the stub, materialises the cubin blob as a global
string at the module entry, and annotates the stub with a symbol reference to
the getter.  Flagged child modules are erased afterwards.

The embedding below models the IR shallowly: a top-level module is an ordered
list of items (functions, LLVM globals, child modules); attribute maps are
association lists; the cubin payload is a byte list.
-/

set_option autoImplicit false

namespace GenCubin

/-- Payload bytes of a cubin blob (the value of a `StringAttr`). -/
abbrev Bytes := List Nat

/-- Attribute values relevant to this pass: string attributes (byte blobs),
unit attributes (the kernel-module marker) and symbol references (the value
written under the getter key). -/
inductive AttrValue where
  | str (bytes : Bytes)
  | unit
  | symbolRef (sym : String)
deriving DecidableEq, Repr

/-- An attribute map: association list from attribute names to values. -/
abbrev AttrMap := List (String × AttrValue)

/-- Lookup of an attribute by name (first binding wins, as in a symbol map). -/
def AttrMap.get : AttrMap → String → Option AttrValue
  | [], _ => none
  | (k', v') :: rest, k => if k' = k then some v' else AttrMap.get rest k

/-- Writing an attribute (`Operation::setAttr`): replaces the existing binding
for the key or appends a fresh one. -/
def AttrMap.set : AttrMap → String → AttrValue → AttrMap
  | [], k, v => [(k, v)]
  | (k', v') :: rest, k, v =>
    if k' = k then (k, v) :: rest else (k', v') :: AttrMap.set rest k v

/-- Types that occur in this pass: the opaque byte-pointer `!llvm<"i8*">`
returned by getters, and arbitrary other types. -/
inductive LLVMTy where
  | i8ptr
  | other (id : Nat)
deriving DecidableEq, Repr

/-- Body of a function.  `declOnly` is a body-less declaration (the stub
functions in the parent module); `someOps (id)` is an arbitrary pre-existing
body; `returnAddrOfFirstElem g` is the body built for a getter: a single
entry block that takes the address of the first character of global `g`
(addressof, constant 0, getelementptr) and returns that pointer, nothing
else. -/
inductive FuncBody where
  | declOnly
  | someOps (id : Nat)
  | returnAddrOfFirstElem (globalName : String)
deriving DecidableEq, Repr

/-- A `FuncOp`: name, arity, result types, body and attribute map. -/
structure FuncOp where
  name : String
  numArgs : Nat
  results : List LLVMTy
  body : FuncBody
  attrs : AttrMap
deriving DecidableEq, Repr

/-- An `LLVM::GlobalOp` holding a constant string. -/
structure GlobalOp where
  name : String
  value : Bytes
deriving DecidableEq, Repr

/-- A nested child module: its attribute map and its functions. -/
structure ChildModule where
  attrs : AttrMap
  funcs : List FuncOp
deriving DecidableEq, Repr

/-- One operation in the top-level module's body. -/
inductive Item where
  | func (f : FuncOp)
  | global (g : GlobalOp)
  | child (c : ChildModule)
deriving DecidableEq, Repr

/-- The top-level module: an ordered list of items. -/
structure TopModule where
  items : List Item
deriving DecidableEq, Repr

/-- Attribute key of the cubin blob (`kCubinAnnotation` in the source;
renamed here because of naming restrictions of this development). -/
def kCubinAttrName : String := "nvvm.cubin"

/-- Attribute key of the getter cross-link (`kCubinGetterAnnotation` in the
source). -/
def kCubinGetterAttrName : String := "nvvm.cubingetter"

/-- Suffix of the getter function's name (`kCubinGetterSuffix`). -/
def kCubinGetterSuffix : String := "_cubin"

/-- Suffix of the global constant's name (`kCubinStorageSuffix`). -/
def kCubinStorageSuffix : String := "_cubin_cst"

/-- Attribute key flagging a child module as kernel-holding
(`gpu::GPUDialect::getKernelModuleAttrName()`). -/
def kernelModuleAttrName : String := "gpu.kernel_module"

/-- Symbol name of an item, when it has one (functions and globals are
symbols; child modules are not looked up by this pass). -/
def Item.symName : Item → Option String
  | .func f => some f.name
  | .global g => some g.name
  | .child _ => none

/-- Symbol-table lookup filtered to functions
(`ModuleOp::lookupSymbol<FuncOp>`): find the first item whose symbol name
matches; if it is a function return it, otherwise the cast fails and the
lookup yields nothing. -/
def lookupFuncItems : List Item → String → Option FuncOp
  | [], _ => none
  | it :: rest, n =>
    match it.symName with
    | some m => if m = n then (match it with
                               | .func f => some f
                               | _ => none)
                else lookupFuncItems rest n
    | none => lookupFuncItems rest n

/-- Lookup of a function in the top-level module by name. -/
def TopModule.lookupFunc (m : TopModule) (n : String) : Option FuncOp :=
  lookupFuncItems m.items n

/-- Insertion of a new item immediately after the first function named
`stubName` (the builder's `setInsertionPointAfter(stubFunc)` followed by
`create<FuncOp>`).  When no such function exists the list is unchanged; the
pass only inserts after a successful lookup. -/
def insertAfterFunc : List Item → String → Item → List Item
  | [], _, _ => []
  | .func f :: rest, stubName, newItem =>
    if f.name = stubName then .func f :: newItem :: rest
    else .func f :: insertAfterFunc rest stubName newItem
  | it :: rest, stubName, newItem => it :: insertAfterFunc rest stubName newItem

/-- Update of the first function named `fname` with `setAttr k v`
(the source holds a handle to the resolved stub and writes through it). -/
def setFuncAttrFirst : List Item → String → String → AttrValue → List Item
  | [], _, _, _ => []
  | .func f :: rest, fname, k, v =>
    if f.name = fname then .func { f with attrs := f.attrs.set k v } :: rest
    else .func f :: setFuncAttrFirst rest fname k v
  | it :: rest, fname, k, v => it :: setFuncAttrFirst rest fname k v

/-- Truncation of a string buffer to its first `n` characters
(`SmallString::resize` with a smaller size). -/
def resizeTo (s : String) (n : Nat) : String := ⟨s.data.take n⟩

/-- Modelled from the spec: `LLVM::createGlobalString` is declared in the
LLVM dialect utilities, which are not under src/.  Per the specification
(§4.2 steps 4-5) it creates a module-level constant global named `name`
initialised with the payload bytes at the entry of the module, and the
getter body computes the address of the first element of that global.  The
address computation is recorded in the getter's `FuncBody` by the caller. -/
def createGlobalString (items : List Item) (name : String) (value : Bytes) :
    List Item :=
  Item.global { name := name, value := value } :: items

/-- The getter function built by `generate` for a donor named `base`:
zero arguments, one `i8*` result, and a body returning the address of the
first character of the storage global. -/
def accessorFor (base : String) : FuncOp :=
  { name := base ++ kCubinGetterSuffix
    numArgs := 0
    results := [LLVMTy.i8ptr]
    body := FuncBody.returnAddrOfFirstElem (base ++ kCubinStorageSuffix)
    attrs := [] }

/-- Embedding of `GpuGenerateCubinAccessorsPass::generate`.  Looks up the
stub function with the kernel function's name in the top-level module; on
failure it emits an error and signals pass failure (second component `true`)
leaving the module unchanged.  On success it builds the getter name by
appending the getter suffix to the stub's name in a buffer, creates the
getter function right after the stub, drops the suffix from the buffer by
resizing to the stub name's length and appends the storage suffix, creates
the global string holding the blob, and finally sets the getter symbol
reference attribute on the stub. -/
def generate (m : TopModule) (kernelFunc : FuncOp) (blob : Bytes) :
    TopModule × Bool :=
  match lookupFuncItems m.items kernelFunc.name with
  | none => (m, true)
  | some stubFunc =>
    let nameBuffer := stubFunc.name
    let getterName := nameBuffer ++ kCubinGetterSuffix
    let storageName := resizeTo getterName stubFunc.name.length ++
      kCubinStorageSuffix
    let getter : FuncOp :=
      { name := getterName
        numArgs := 0
        results := [LLVMTy.i8ptr]
        body := FuncBody.returnAddrOfFirstElem storageName
        attrs := [] }
    let items1 := insertAfterFunc m.items stubFunc.name (Item.func getter)
    let items2 := createGlobalString items1 storageName blob
    let items3 := setFuncAttrFirst items2 stubFunc.name kCubinGetterAttrName
      (AttrValue.symbolRef getterName)
    (⟨items3⟩, false)

/-- Test of the kernel-module flag
(`getAttrOfType<UnitAttr>(getKernelModuleAttrName())`). -/
def isKernelModule (c : ChildModule) : Bool :=
  c.attrs.get kernelModuleAttrName == some AttrValue.unit

/-- Presence and shape of the cubin attribute
(`getAttrOfType<StringAttr>(kCubinAnnotation)`). -/
def hasPayload (f : FuncOp) : Bool :=
  match f.attrs.get kCubinAttrName with
  | some (AttrValue.str _) => true
  | _ => false

/-- The inner loop of `runOnModule`: visit the functions of one kernel
module in order and call `generate` on each one carrying a cubin string
attribute, threading the evolving top-level module and the pass-failure
flag. -/
def processChildFuncs : TopModule → List FuncOp → Bool → TopModule × Bool
  | m, [], failed => (m, failed)
  | m, f :: rest, failed =>
    match f.attrs.get kCubinAttrName with
    | some (AttrValue.str blob) =>
      let r := generate m f blob
      processChildFuncs r.1 rest (failed || r.2)
    | _ => processChildFuncs m rest failed

/-- Removal of the first child-module item equal to `c` (`module.erase()`;
the early-increment iterator makes erasing the current module safe). -/
def eraseFirstChild : List Item → ChildModule → List Item
  | [], _ => []
  | .child c' :: rest, c =>
    if c' = c then rest else .child c' :: eraseFirstChild rest c
  | it :: rest, c => it :: eraseFirstChild rest c

/-- The child modules of an item list, in order (`getOps<ModuleOp>`). -/
def childrenOf (items : List Item) : List ChildModule :=
  items.filterMap fun it =>
    match it with
    | .child c => some c
    | _ => none

/-- The globals of an item list, in order. -/
def globalsOf (items : List Item) : List GlobalOp :=
  items.filterMap fun it =>
    match it with
    | .global g => some g
    | _ => none

/-- The functions of an item list, in order. -/
def funcsOf (items : List Item) : List FuncOp :=
  items.filterMap fun it =>
    match it with
    | .func f => some f
    | _ => none

/-- The function names of an item list, in order. -/
def funcNamesOf (items : List Item) : List String :=
  (funcsOf items).map FuncOp.name

/-- The outer loop of `runOnModule` over the snapshot of child modules
(`llvm::make_early_inc_range(getModule().getOps<ModuleOp>())`): child
modules lacking the kernel flag are skipped; a flagged child has its
functions processed and is then erased unconditionally. -/
def runAux : TopModule → List ChildModule → Bool → TopModule × Bool
  | m, [], failed => (m, failed)
  | m, c :: cs, failed =>
    if isKernelModule c then
      let r := processChildFuncs m c.funcs failed
      runAux ⟨eraseFirstChild r.1.items c⟩ cs r.2
    else runAux m cs failed

/-- Embedding of `GpuGenerateCubinAccessorsPass::runOnModule`.  The second
component records whether `signalPassFailure` was called during the run. -/
def runOnModule (m : TopModule) : TopModule × Bool :=
  runAux m (childrenOf m.items) false

/-- Test whether any item of the list carries the given symbol name; used to
state the no-collision precondition of the spec ("must not collide with any
existing symbol in the parent module under correct input"). -/
def hasSymbolNamed (items : List Item) (n : String) : Bool :=
  items.any fun it => it.symName == some n

/-- Test whether some function named `d` is immediately followed, in the
item list, by the function `g` (the placement contract for getters). -/
def adjacentFuncGetter : List Item → String → FuncOp → Bool
  | Item.func a :: Item.func b :: rest, d, g =>
    (a.name == d && b == g) || adjacentFuncGetter (Item.func b :: rest) d g
  | _ :: rest, d, g => adjacentFuncGetter rest d g
  | [], _, _ => false

/-- First global of the item list with the given name. -/
def findGlobalItems : List Item → String → Option GlobalOp
  | [], _ => none
  | Item.global g :: rest, n =>
    if g.name = n then some g else findGlobalItems rest n
  | _ :: rest, n => findGlobalItems rest n

/-- Removal of the first occurrence of a child module from a list of child
modules; the list-level image of `eraseFirstChild`. -/
def removeFirst : List ChildModule → ChildModule → List ChildModule
  | [], _ => []
  | x :: xs, c => if x = c then xs else x :: removeFirst xs c

/-! Concrete fixtures used by the witness theorems. -/

/-- Stub function `g` in the parent module: body-less, no attributes. -/
def stubG : FuncOp :=
  { name := "g", numArgs := 0, results := [], body := FuncBody.declOnly,
    attrs := [] }

/-- Kernel function `f` with a cubin payload but no matching stub. -/
def srcF : FuncOp :=
  { name := "f", numArgs := 0, results := [], body := FuncBody.someOps 0,
    attrs := [(kCubinAttrName, AttrValue.str [1])] }

/-- Kernel function `g` with a cubin payload and a matching stub. -/
def srcG : FuncOp :=
  { name := "g", numArgs := 0, results := [], body := FuncBody.someOps 1,
    attrs := [(kCubinAttrName, AttrValue.str [2])] }

/-- Kernel-holding child module containing `srcF` then `srcG`. -/
def kernelChild : ChildModule :=
  { attrs := [(kernelModuleAttrName, AttrValue.unit)], funcs := [srcF, srcG] }

/-- Top-level module with one stub `g` and one kernel module; the first
kernel function `f` has no matching stub. -/
def exTop : TopModule := ⟨[Item.func stubG, Item.child kernelChild]⟩

/-- Stub function `k` with a nontrivial signature. -/
def stubK : FuncOp :=
  { name := "k", numArgs := 2, results := [LLVMTy.other 3],
    body := FuncBody.declOnly, attrs := [] }

/-- Kernel function `k` carrying payload bytes `[7, 8]`. -/
def srcK : FuncOp :=
  { name := "k", numArgs := 2, results := [], body := FuncBody.someOps 2,
    attrs := [(kCubinAttrName, AttrValue.str [7, 8])] }

/-- Parent module containing only the stub `k`. -/
def wm : TopModule := ⟨[Item.func stubK]⟩

/-- A child module without the kernel flag. -/
def plainChild : ChildModule := { attrs := [], funcs := [srcG] }

/-- Parent module with a stub, a flagged kernel module holding `srcK`, and
an unflagged child module. -/
def wm8 : TopModule :=
  ⟨[Item.func stubK,
    Item.child ⟨[(kernelModuleAttrName, AttrValue.unit)], [srcK]⟩,
    Item.child plainChild]⟩

/-- Parent module whose function named `k` has a body (it is not a
declaration); used for the donor-resolution claim about bodies. -/
def bodiedK : FuncOp :=
  { name := "k", numArgs := 0, results := [], body := FuncBody.someOps 9,
    attrs := [] }

/-- Parent module containing only the bodied function `k`. -/
def wmBodied : TopModule := ⟨[Item.func bodiedK]⟩

/-! Helper lemmas about strings. -/

/-- Truncating `s ++ t` back to the length of `s` recovers `s`. -/
theorem resizeTo_append (s t : String) : resizeTo (s ++ t) s.length = s := by
  show String.mk (((s ++ t).data).take s.length) = s
  have h1 : (s ++ t).data = s.data ++ t.data := rfl
  have h2 : s.length = s.data.length := rfl
  rw [h1, h2, List.take_left]

/-- Appending a nonempty string changes a string. -/
theorem append_ne_self (s t : String) (h : t.length ≠ 0) : s ++ t ≠ s := by
  intro he
  have hlen := congrArg String.length he
  rw [String.length_append] at hlen
  omega

/-- Appending different strings to the same base yields different strings. -/
theorem append_ne_append (s t u : String) (h : t ≠ u) : s ++ t ≠ s ++ u := by
  intro he
  apply h
  have hd : s.data ++ t.data = s.data ++ u.data := congrArg String.data he
  have hd' : t.data = u.data := List.append_cancel_left hd
  cases t
  cases u
  exact congrArg String.mk hd'

/-! Helper lemmas about attribute maps and lookups. -/

/-- Reading back the key just written by `AttrMap.set`. -/
theorem AttrMap.get_set (m : AttrMap) (k : String) (v : AttrValue) :
    AttrMap.get (AttrMap.set m k v) k = some v := by
  induction m with
  | nil => simp [AttrMap.set, AttrMap.get]
  | cons p rest ih =>
    obtain ⟨k', v'⟩ := p
    by_cases hk : k' = k
    · simp [AttrMap.set, AttrMap.get, hk]
    · simp [AttrMap.set, AttrMap.get, hk, ih]

/-- A successful function lookup returns a function with the looked-up
name. -/
theorem lookupFuncItems_name (items : List Item) (n : String) (s : FuncOp)
    (h : lookupFuncItems items n = some s) : s.name = n := by
  induction items with
  | nil => simp [lookupFuncItems] at h
  | cons it rest ih =>
    cases it with
    | func f =>
      by_cases hf : f.name = n
      · simp only [lookupFuncItems, Item.symName, hf, if_pos rfl] at h
        cases h
        exact hf
      · simp only [lookupFuncItems, Item.symName, if_neg hf] at h
        exact ih h
    | global g =>
      by_cases hg : g.name = n
      · simp [lookupFuncItems, Item.symName, hg] at h
      · simp only [lookupFuncItems, Item.symName, if_neg hg] at h
        exact ih h
    | child c =>
      simp only [lookupFuncItems, Item.symName] at h
      exact ih h

/-- Prepending a global commutes with `setFuncAttrFirst`. -/
theorem setFuncAttrFirst_global_cons (g : GlobalOp) (L : List Item)
    (n k : String) (v : AttrValue) :
    setFuncAttrFirst (Item.global g :: L) n k v
      = Item.global g :: setFuncAttrFirst L n k v := rfl

/-- Characterisation of `generate` on a successful stub lookup: the result
is the input items with the getter inserted after the stub, the storage
global prepended, the getter cross-link attribute set on the stub, and no
failure signalled. -/
theorem generate_eq_of_lookup (m : TopModule) (f : FuncOp) (blob : Bytes)
    (s : FuncOp) (h : lookupFuncItems m.items f.name = some s) :
    generate m f blob =
      (⟨Item.global { name := s.name ++ kCubinStorageSuffix, value := blob } ::
          setFuncAttrFirst
            (insertAfterFunc m.items s.name (Item.func (accessorFor s.name)))
            s.name kCubinGetterAttrName
            (AttrValue.symbolRef (s.name ++ kCubinGetterSuffix))⟩,
       false) := by
  unfold generate
  rw [h]
  simp only [createGlobalString, accessorFor, resizeTo_append,
    setFuncAttrFirst_global_cons]

/-- Characterisation of `generate` on a failed stub lookup: the module is
returned unchanged and failure is signalled. -/
theorem generate_eq_of_no_lookup (m : TopModule) (f : FuncOp) (blob : Bytes)
    (h : lookupFuncItems m.items f.name = none) :
    generate m f blob = (m, true) := by
  unfold generate
  rw [h]

/-- Looking up the donor after inserting the getter and setting the
cross-link attribute finds the donor with exactly that attribute written. -/
theorem lookup_donor_after (items : List Item) (n : String) (s g : FuncOp)
    (k : String) (v : AttrValue)
    (h : lookupFuncItems items n = some s) :
    lookupFuncItems
        (setFuncAttrFirst (insertAfterFunc items n (Item.func g)) n k v) n
      = some { s with attrs := s.attrs.set k v } := by
  induction items with
  | nil => simp [lookupFuncItems] at h
  | cons it rest ih =>
    cases it with
    | func f =>
      by_cases hf : f.name = n
      · have hh : f = s := by
          simpa [lookupFuncItems, Item.symName, hf] using h
        subst hh
        simp [insertAfterFunc, setFuncAttrFirst, lookupFuncItems,
          Item.symName, hf]
      · simp only [lookupFuncItems, Item.symName, if_neg hf] at h
        simpa [insertAfterFunc, setFuncAttrFirst, lookupFuncItems,
          Item.symName, hf] using ih h
    | global gl =>
      by_cases hg : gl.name = n
      · simp [lookupFuncItems, Item.symName, hg] at h
      · simp only [lookupFuncItems, Item.symName, if_neg hg] at h
        simpa [insertAfterFunc, setFuncAttrFirst, lookupFuncItems,
          Item.symName, hg] using ih h
    | child c =>
      simp only [lookupFuncItems, Item.symName] at h
      simpa [insertAfterFunc, setFuncAttrFirst, lookupFuncItems,
        Item.symName] using ih h

/-- Looking up the getter's name after the transformation finds exactly the
inserted getter, provided the getter's name was fresh. -/
theorem lookup_getter_after (items : List Item) (n : String) (s g : FuncOp)
    (k : String) (v : AttrValue)
    (h : lookupFuncItems items n = some s)
    (hfresh : hasSymbolNamed items g.name = false)
    (hne : g.name ≠ n) :
    lookupFuncItems
        (setFuncAttrFirst (insertAfterFunc items n (Item.func g)) n k v)
        g.name
      = some g := by
  induction items with
  | nil => simp [lookupFuncItems] at h
  | cons it rest ih =>
    have hfresh1 : (it.symName == some g.name) = false ∧
        hasSymbolNamed rest g.name = false := by
      simpa [hasSymbolNamed, Bool.or_eq_false_iff] using hfresh
    cases it with
    | func f =>
      have hfg : f.name ≠ g.name := by
        intro he
        simp [Item.symName, he] at hfresh1
      by_cases hf : f.name = n
      · simp [insertAfterFunc, setFuncAttrFirst, lookupFuncItems,
          Item.symName, hf, hfg, Ne.symm hne]
      · simp only [lookupFuncItems, Item.symName, if_neg hf] at h
        simpa [insertAfterFunc, setFuncAttrFirst, lookupFuncItems,
          Item.symName, hf, hfg] using ih h hfresh1.2
    | global gl =>
      have hgg : gl.name ≠ g.name := by
        intro he
        simp [Item.symName, he] at hfresh1
      by_cases hg : gl.name = n
      · simp [lookupFuncItems, Item.symName, hg] at h
      · simp only [lookupFuncItems, Item.symName, if_neg hg] at h
        simpa [insertAfterFunc, setFuncAttrFirst, lookupFuncItems,
          Item.symName, hg, hgg] using ih h hfresh1.2
    | child c =>
      simp only [lookupFuncItems, Item.symName] at h
      simpa [insertAfterFunc, setFuncAttrFirst, lookupFuncItems,
        Item.symName] using ih h hfresh1.2

/-- Adjacency is preserved by prepending any item. -/
theorem adjacentFuncGetter_cons (it : Item) (L : List Item) (d : String)
    (g : FuncOp) (h : adjacentFuncGetter L d g = true) :
    adjacentFuncGetter (it :: L) d g = true := by
  cases it with
  | func a =>
    cases L with
    | nil => simp [adjacentFuncGetter] at h
    | cons it2 rest =>
      cases it2 with
      | func b => simp [adjacentFuncGetter, h]
      | global gl => simpa [adjacentFuncGetter] using h
      | child c => simpa [adjacentFuncGetter] using h
  | global gl => simpa [adjacentFuncGetter] using h
  | child c => simpa [adjacentFuncGetter] using h

/-- After the transformation performed by `generate`, the getter sits
immediately after the donor in the item list. -/
theorem adjacent_after_transform (items : List Item) (n : String) (s g : FuncOp)
    (k : String) (v : AttrValue)
    (h : lookupFuncItems items n = some s) :
    adjacentFuncGetter
        (setFuncAttrFirst (insertAfterFunc items n (Item.func g)) n k v) n g
      = true := by
  induction items with
  | nil => simp [lookupFuncItems] at h
  | cons it rest ih =>
    cases it with
    | func f =>
      by_cases hf : f.name = n
      · simp [insertAfterFunc, setFuncAttrFirst, adjacentFuncGetter, hf]
      · simp only [lookupFuncItems, Item.symName, if_neg hf] at h
        have hrec := ih h
        simp only [insertAfterFunc, if_neg hf, setFuncAttrFirst]
        exact adjacentFuncGetter_cons _ _ _ _ hrec
    | global gl =>
      by_cases hg : gl.name = n
      · simp [lookupFuncItems, Item.symName, hg] at h
      · simp only [lookupFuncItems, Item.symName, if_neg hg] at h
        have hrec := ih h
        simp only [insertAfterFunc, setFuncAttrFirst]
        exact adjacentFuncGetter_cons _ _ _ _ hrec
    | child c =>
      simp only [lookupFuncItems, Item.symName] at h
      have hrec := ih h
      simp only [insertAfterFunc, setFuncAttrFirst]
      exact adjacentFuncGetter_cons _ _ _ _ hrec

/-! Preservation lemmas: the projections of the item list under the
elementary edits of the pass. -/

/-- Unfolding `childrenOf` over a function item. -/
theorem childrenOf_cons_func (f : FuncOp) (rest : List Item) :
    childrenOf (Item.func f :: rest) = childrenOf rest := rfl

/-- Unfolding `childrenOf` over a global item. -/
theorem childrenOf_cons_global (g : GlobalOp) (rest : List Item) :
    childrenOf (Item.global g :: rest) = childrenOf rest := rfl

/-- Unfolding `childrenOf` over a child-module item. -/
theorem childrenOf_cons_child (c : ChildModule) (rest : List Item) :
    childrenOf (Item.child c :: rest) = c :: childrenOf rest := rfl

/-- Inserting a function after the stub does not change the child modules. -/
theorem childrenOf_insertAfterFunc (items : List Item) (n : String)
    (g : FuncOp) :
    childrenOf (insertAfterFunc items n (Item.func g)) = childrenOf items := by
  induction items with
  | nil => rfl
  | cons it rest ih =>
    cases it with
    | func f =>
      by_cases hf : f.name = n
      · simp [insertAfterFunc, hf, childrenOf_cons_func]
      · simp [insertAfterFunc, hf, childrenOf_cons_func, ih]
    | global gl => simp [insertAfterFunc, childrenOf_cons_global, ih]
    | child c => simp [insertAfterFunc, childrenOf_cons_child, ih]

/-- Setting an attribute on a function does not change the child modules. -/
theorem childrenOf_setFuncAttrFirst (items : List Item) (n k : String)
    (v : AttrValue) :
    childrenOf (setFuncAttrFirst items n k v) = childrenOf items := by
  induction items with
  | nil => rfl
  | cons it rest ih =>
    cases it with
    | func f =>
      by_cases hf : f.name = n
      · simp [setFuncAttrFirst, hf, childrenOf_cons_func]
      · simp [setFuncAttrFirst, hf, childrenOf_cons_func, ih]
    | global gl => simp [setFuncAttrFirst, childrenOf_cons_global, ih]
    | child c => simp [setFuncAttrFirst, childrenOf_cons_child, ih]

/-- The synthesiser step never touches child modules. -/
theorem childrenOf_generate (m : TopModule) (f : FuncOp) (b : Bytes) :
    childrenOf (generate m f b).1.items = childrenOf m.items := by
  cases h : lookupFuncItems m.items f.name with
  | none => rw [generate_eq_of_no_lookup m f b h]
  | some s =>
    rw [generate_eq_of_lookup m f b s h]
    simp [childrenOf_cons_global, childrenOf_setFuncAttrFirst,
      childrenOf_insertAfterFunc]

/-- Processing all functions of one kernel module never touches child
modules. -/
theorem childrenOf_processChildFuncs (fs : List FuncOp) :
    ∀ (m : TopModule) (failed : Bool),
      childrenOf (processChildFuncs m fs failed).1.items
        = childrenOf m.items := by
  induction fs with
  | nil => intro m failed; rfl
  | cons f rest ih =>
    intro m failed
    cases hm : f.attrs.get kCubinAttrName with
    | none => simpa [processChildFuncs, hm] using ih m failed
    | some av =>
      cases av with
      | str blob =>
        simp only [processChildFuncs, hm]
        rw [ih, childrenOf_generate]
      | unit => simpa [processChildFuncs, hm] using ih m failed
      | symbolRef r => simpa [processChildFuncs, hm] using ih m failed

/-- Erasing a child module corresponds to `removeFirst` on the projected
child list. -/
theorem childrenOf_eraseFirstChild (items : List Item) (c : ChildModule) :
    childrenOf (eraseFirstChild items c) = removeFirst (childrenOf items) c := by
  induction items with
  | nil => rfl
  | cons it rest ih =>
    cases it with
    | func f => simpa [eraseFirstChild, childrenOf_cons_func] using ih
    | global gl => simpa [eraseFirstChild, childrenOf_cons_global] using ih
    | child c' =>
      by_cases hc : c' = c
      · simp only [eraseFirstChild, if_pos hc, childrenOf_cons_child,
          removeFirst, if_pos hc]
        rfl
      · simp only [eraseFirstChild, if_neg hc, childrenOf_cons_child,
          removeFirst, if_neg hc, ih]
        rfl

/-- Removing the first occurrence of `c` from `U ++ c :: rest` when `c` does
not occur in `U`. -/
theorem removeFirst_append (U rest : List ChildModule) (c : ChildModule)
    (hU : ∀ u ∈ U, u ≠ c) :
    removeFirst (U ++ c :: rest) c = U ++ rest := by
  induction U with
  | nil => simp [removeFirst]
  | cons u U' ih =>
    have hu : u ≠ c := hU u (by simp)
    have hrec := ih (fun x hx => hU x (by simp [hx]))
    simp only [List.cons_append, removeFirst, if_neg hu]
    exact congrArg (u :: ·) hrec

/-- Master lemma for the scanner loop: starting from a module whose child
list splits into an already-visited unflagged prefix `U` and the snapshot
`cs` still to visit, the loop keeps exactly the unflagged children. -/
theorem runAux_children (cs : List ChildModule) :
    ∀ (m : TopModule) (U : List ChildModule) (failed : Bool),
      childrenOf m.items = U ++ cs →
      (∀ u ∈ U, isKernelModule u = false) →
      childrenOf (runAux m cs failed).1.items
        = U ++ cs.filter (fun c => !(isKernelModule c)) := by
  induction cs with
  | nil => intro m U failed hm hU; simpa [runAux] using hm
  | cons c cs' ih =>
    intro m U failed hm hU
    by_cases hc : isKernelModule c = true
    · simp only [runAux, if_pos hc]
      have hchild :
          childrenOf (processChildFuncs m c.funcs failed).1.items
            = U ++ c :: cs' := by
        rw [childrenOf_processChildFuncs]; exact hm
      have hUc : ∀ u ∈ U, u ≠ c := by
        intro u hu he
        have hf := hU u hu
        rw [he, hc] at hf
        exact Bool.noConfusion hf
      have herase :
          childrenOf (eraseFirstChild
            (processChildFuncs m c.funcs failed).1.items c)
            = U ++ cs' := by
        rw [childrenOf_eraseFirstChild, hchild]
        exact removeFirst_append U cs' c hUc
      rw [ih _ U _ herase hU]
      simp [hc]
    · have hc' : isKernelModule c = false := by
        simpa using hc
      simp only [runAux, if_neg hc]
      have hU' : ∀ u ∈ U ++ [c], isKernelModule u = false := by
        intro u hu
        rcases List.mem_append.mp hu with h1 | h2
        · exact hU u h1
        · simp only [List.mem_singleton] at h2
          rw [h2]; exact hc'
      have := ih m (U ++ [c]) failed (by simpa using hm) hU'
      rw [this]
      simp [hc']

/-- Unfolding `globalsOf` over a function item. -/
theorem globalsOf_cons_func (f : FuncOp) (rest : List Item) :
    globalsOf (Item.func f :: rest) = globalsOf rest := rfl

/-- Unfolding `globalsOf` over a global item. -/
theorem globalsOf_cons_global (g : GlobalOp) (rest : List Item) :
    globalsOf (Item.global g :: rest) = g :: globalsOf rest := rfl

/-- Unfolding `globalsOf` over a child-module item. -/
theorem globalsOf_cons_child (c : ChildModule) (rest : List Item) :
    globalsOf (Item.child c :: rest) = globalsOf rest := rfl

/-- Inserting a function does not change the globals. -/
theorem globalsOf_insertAfterFunc (items : List Item) (n : String)
    (g : FuncOp) :
    globalsOf (insertAfterFunc items n (Item.func g)) = globalsOf items := by
  induction items with
  | nil => rfl
  | cons it rest ih =>
    cases it with
    | func f =>
      by_cases hf : f.name = n
      · simp [insertAfterFunc, hf, globalsOf_cons_func]
      · simp [insertAfterFunc, hf, globalsOf_cons_func, ih]
    | global gl => simp [insertAfterFunc, globalsOf_cons_global, ih]
    | child c => simp [insertAfterFunc, globalsOf_cons_child, ih]

/-- Setting a function attribute does not change the globals. -/
theorem globalsOf_setFuncAttrFirst (items : List Item) (n k : String)
    (v : AttrValue) :
    globalsOf (setFuncAttrFirst items n k v) = globalsOf items := by
  induction items with
  | nil => rfl
  | cons it rest ih =>
    cases it with
    | func f =>
      by_cases hf : f.name = n
      · simp [setFuncAttrFirst, hf, globalsOf_cons_func]
      · simp [setFuncAttrFirst, hf, globalsOf_cons_func, ih]
    | global gl => simp [setFuncAttrFirst, globalsOf_cons_global, ih]
    | child c => simp [setFuncAttrFirst, globalsOf_cons_child, ih]

/-- Erasing a child module does not change the globals. -/
theorem globalsOf_eraseFirstChild (items : List Item) (c : ChildModule) :
    globalsOf (eraseFirstChild items c) = globalsOf items := by
  induction items with
  | nil => rfl
  | cons it rest ih =>
    cases it with
    | func f => simpa [eraseFirstChild, globalsOf_cons_func] using ih
    | global gl => simpa [eraseFirstChild, globalsOf_cons_global] using ih
    | child c' =>
      by_cases hc : c' = c
      · simp [eraseFirstChild, hc, globalsOf_cons_child]
      · simp [eraseFirstChild, hc, globalsOf_cons_child, ih]

/-- Every global present after one `generate` step either pre-existed or is
the storage global of the processed kernel function. -/
theorem generate_globals (m : TopModule) (f : FuncOp) (b : Bytes)
    (g' : GlobalOp) (hg : g' ∈ globalsOf (generate m f b).1.items) :
    g' ∈ globalsOf m.items ∨
      (g'.name = f.name ++ kCubinStorageSuffix ∧ g'.value = b) := by
  cases h : lookupFuncItems m.items f.name with
  | none =>
    rw [generate_eq_of_no_lookup m f b h] at hg
    exact Or.inl hg
  | some s =>
    rw [generate_eq_of_lookup m f b s h] at hg
    simp only [globalsOf_cons_global, globalsOf_setFuncAttrFirst,
      globalsOf_insertAfterFunc, List.mem_cons] at hg
    rcases hg with h1 | h2
    · right
      rw [h1]
      exact ⟨by rw [lookupFuncItems_name _ _ _ h], rfl⟩
    · exact Or.inl h2

/-- Every global present after processing one kernel module either
pre-existed or is the storage global of one of the module's payload-bearing
functions. -/
theorem processChildFuncs_globals (fs : List FuncOp) :
    ∀ (m : TopModule) (failed : Bool) (g' : GlobalOp),
      g' ∈ globalsOf (processChildFuncs m fs failed).1.items →
      g' ∈ globalsOf m.items ∨
        ∃ f ∈ fs, hasPayload f = true ∧
          g'.name = f.name ++ kCubinStorageSuffix := by
  induction fs with
  | nil => intro m failed g' hg; exact Or.inl hg
  | cons f rest ih =>
    intro m failed g' hg
    cases hm : f.attrs.get kCubinAttrName with
    | none =>
      simp only [processChildFuncs, hm] at hg
      rcases ih _ _ _ hg with h1 | ⟨f', hf', hp, hn⟩
      · exact Or.inl h1
      · exact Or.inr ⟨f', by simp [hf'], hp, hn⟩
    | some av =>
      cases av with
      | str blob =>
        simp only [processChildFuncs, hm] at hg
        rcases ih _ _ _ hg with h1 | ⟨f', hf', hp, hn⟩
        · rcases generate_globals m f blob g' h1 with h2 | ⟨hn2, _⟩
          · exact Or.inl h2
          · exact Or.inr ⟨f, by simp, by simp [hasPayload, hm], hn2⟩
        · exact Or.inr ⟨f', by simp [hf'], hp, hn⟩
      | unit =>
        simp only [processChildFuncs, hm] at hg
        rcases ih _ _ _ hg with h1 | ⟨f', hf', hp, hn⟩
        · exact Or.inl h1
        · exact Or.inr ⟨f', by simp [hf'], hp, hn⟩
      | symbolRef r =>
        simp only [processChildFuncs, hm] at hg
        rcases ih _ _ _ hg with h1 | ⟨f', hf', hp, hn⟩
        · exact Or.inl h1
        · exact Or.inr ⟨f', by simp [hf'], hp, hn⟩

/-- Every global present after the scanner loop either pre-existed or is
the storage global of a payload-bearing function of a flagged child. -/
theorem runAux_globals (cs : List ChildModule) :
    ∀ (m : TopModule) (failed : Bool) (g' : GlobalOp),
      g' ∈ globalsOf (runAux m cs failed).1.items →
      g' ∈ globalsOf m.items ∨
        ∃ c ∈ cs, isKernelModule c = true ∧
          ∃ f ∈ c.funcs, hasPayload f = true ∧
            g'.name = f.name ++ kCubinStorageSuffix := by
  induction cs with
  | nil => intro m failed g' hg; exact Or.inl hg
  | cons c cs' ih =>
    intro m failed g' hg
    by_cases hc : isKernelModule c = true
    · simp only [runAux, if_pos hc] at hg
      rcases ih _ _ _ hg with h1 | ⟨c', hc', hk, f, hf, hp, hn⟩
      · rw [globalsOf_eraseFirstChild] at h1
        rcases processChildFuncs_globals c.funcs m failed g' h1 with
          h2 | ⟨f, hf, hp, hn⟩
        · exact Or.inl h2
        · exact Or.inr ⟨c, by simp, hc, f, hf, hp, hn⟩
      · exact Or.inr ⟨c', by simp [hc'], hk, f, hf, hp, hn⟩
    · simp only [runAux, if_neg hc] at hg
      rcases ih _ _ _ hg with h1 | ⟨c', hc', hk, f, hf, hp, hn⟩
      · exact Or.inl h1
      · exact Or.inr ⟨c', by simp [hc'], hk, f, hf, hp, hn⟩

/-- Unfolding `funcNamesOf` over a function item. -/
theorem funcNamesOf_cons_func (f : FuncOp) (rest : List Item) :
    funcNamesOf (Item.func f :: rest) = f.name :: funcNamesOf rest := rfl

/-- Unfolding `funcNamesOf` over a global item. -/
theorem funcNamesOf_cons_global (g : GlobalOp) (rest : List Item) :
    funcNamesOf (Item.global g :: rest) = funcNamesOf rest := rfl

/-- Unfolding `funcNamesOf` over a child-module item. -/
theorem funcNamesOf_cons_child (c : ChildModule) (rest : List Item) :
    funcNamesOf (Item.child c :: rest) = funcNamesOf rest := rfl

/-- Function names present after inserting the getter: either a
pre-existing name or the getter's name. -/
theorem funcNamesOf_insertAfterFunc (items : List Item) (n : String)
    (g : FuncOp) (x : String)
    (hx : x ∈ funcNamesOf (insertAfterFunc items n (Item.func g))) :
    x ∈ funcNamesOf items ∨ x = g.name := by
  induction items with
  | nil => exact Or.inl hx
  | cons it rest ih =>
    cases it with
    | func f =>
      by_cases hf : f.name = n
      · simp only [insertAfterFunc, if_pos hf, funcNamesOf_cons_func,
          List.mem_cons] at hx ⊢
        tauto
      · simp only [insertAfterFunc, if_neg hf, funcNamesOf_cons_func,
          List.mem_cons] at hx ⊢
        rcases hx with h1 | h2
        · exact Or.inl (Or.inl h1)
        · rcases ih h2 with h3 | h4
          · exact Or.inl (Or.inr h3)
          · exact Or.inr h4
    | global gl =>
      simp only [insertAfterFunc, funcNamesOf_cons_global] at hx ⊢
      exact ih hx
    | child c =>
      simp only [insertAfterFunc, funcNamesOf_cons_child] at hx ⊢
      exact ih hx

/-- Setting a function attribute does not change the function names. -/
theorem funcNamesOf_setFuncAttrFirst (items : List Item) (n k : String)
    (v : AttrValue) :
    funcNamesOf (setFuncAttrFirst items n k v) = funcNamesOf items := by
  induction items with
  | nil => rfl
  | cons it rest ih =>
    cases it with
    | func f =>
      by_cases hf : f.name = n
      · simp [setFuncAttrFirst, hf, funcNamesOf_cons_func]
      · simp [setFuncAttrFirst, hf, funcNamesOf_cons_func, ih]
    | global gl => simp [setFuncAttrFirst, funcNamesOf_cons_global, ih]
    | child c => simp [setFuncAttrFirst, funcNamesOf_cons_child, ih]

/-- Erasing a child module does not change the function names. -/
theorem funcNamesOf_eraseFirstChild (items : List Item) (c : ChildModule) :
    funcNamesOf (eraseFirstChild items c) = funcNamesOf items := by
  induction items with
  | nil => rfl
  | cons it rest ih =>
    cases it with
    | func f => simpa [eraseFirstChild, funcNamesOf_cons_func] using ih
    | global gl => simpa [eraseFirstChild, funcNamesOf_cons_global] using ih
    | child c' =>
      by_cases hc : c' = c
      · simp [eraseFirstChild, hc, funcNamesOf_cons_child]
      · simp [eraseFirstChild, hc, funcNamesOf_cons_child, ih]

/-- Every function name present after one `generate` step either
pre-existed or is the getter's name for the processed kernel function. -/
theorem generate_funcNames (m : TopModule) (f : FuncOp) (b : Bytes)
    (x : String) (hx : x ∈ funcNamesOf (generate m f b).1.items) :
    x ∈ funcNamesOf m.items ∨ x = f.name ++ kCubinGetterSuffix := by
  cases h : lookupFuncItems m.items f.name with
  | none =>
    rw [generate_eq_of_no_lookup m f b h] at hx
    exact Or.inl hx
  | some s =>
    rw [generate_eq_of_lookup m f b s h] at hx
    rw [funcNamesOf_cons_global, funcNamesOf_setFuncAttrFirst] at hx
    rcases funcNamesOf_insertAfterFunc _ _ _ _ hx with h1 | h2
    · exact Or.inl h1
    · right
      rw [h2]
      simp [accessorFor, lookupFuncItems_name _ _ _ h]

/-- Every function name present after processing one kernel module either
pre-existed or is the getter name of one of the module's payload-bearing
functions. -/
theorem processChildFuncs_funcNames (fs : List FuncOp) :
    ∀ (m : TopModule) (failed : Bool) (x : String),
      x ∈ funcNamesOf (processChildFuncs m fs failed).1.items →
      x ∈ funcNamesOf m.items ∨
        ∃ f ∈ fs, hasPayload f = true ∧
          x = f.name ++ kCubinGetterSuffix := by
  induction fs with
  | nil => intro m failed x hx; exact Or.inl hx
  | cons f rest ih =>
    intro m failed x hx
    cases hm : f.attrs.get kCubinAttrName with
    | none =>
      simp only [processChildFuncs, hm] at hx
      rcases ih _ _ _ hx with h1 | ⟨f', hf', hp, hn⟩
      · exact Or.inl h1
      · exact Or.inr ⟨f', by simp [hf'], hp, hn⟩
    | some av =>
      cases av with
      | str blob =>
        simp only [processChildFuncs, hm] at hx
        rcases ih _ _ _ hx with h1 | ⟨f', hf', hp, hn⟩
        · rcases generate_funcNames m f blob x h1 with h2 | h3
          · exact Or.inl h2
          · exact Or.inr ⟨f, by simp, by simp [hasPayload, hm], h3⟩
        · exact Or.inr ⟨f', by simp [hf'], hp, hn⟩
      | unit =>
        simp only [processChildFuncs, hm] at hx
        rcases ih _ _ _ hx with h1 | ⟨f', hf', hp, hn⟩
        · exact Or.inl h1
        · exact Or.inr ⟨f', by simp [hf'], hp, hn⟩
      | symbolRef r =>
        simp only [processChildFuncs, hm] at hx
        rcases ih _ _ _ hx with h1 | ⟨f', hf', hp, hn⟩
        · exact Or.inl h1
        · exact Or.inr ⟨f', by simp [hf'], hp, hn⟩

/-- Every function name present after the scanner loop either pre-existed
or is the getter name of a payload-bearing function of a flagged child. -/
theorem runAux_funcNames (cs : List ChildModule) :
    ∀ (m : TopModule) (failed : Bool) (x : String),
      x ∈ funcNamesOf (runAux m cs failed).1.items →
      x ∈ funcNamesOf m.items ∨
        ∃ c ∈ cs, isKernelModule c = true ∧
          ∃ f ∈ c.funcs, hasPayload f = true ∧
            x = f.name ++ kCubinGetterSuffix := by
  induction cs with
  | nil => intro m failed x hx; exact Or.inl hx
  | cons c cs' ih =>
    intro m failed x hx
    by_cases hc : isKernelModule c = true
    · simp only [runAux, if_pos hc] at hx
      rcases ih _ _ _ hx with h1 | ⟨c', hc', hk, f, hf, hp, hn⟩
      · rw [funcNamesOf_eraseFirstChild] at h1
        rcases processChildFuncs_funcNames c.funcs m failed x h1 with
          h2 | ⟨f, hf, hp, hn⟩
        · exact Or.inl h2
        · exact Or.inr ⟨c, by simp, hc, f, hf, hp, hn⟩
      · exact Or.inr ⟨c', by simp [hc'], hk, f, hf, hp, hn⟩
    · simp only [runAux, if_neg hc] at hx
      rcases ih _ _ _ hx with h1 | ⟨c', hc', hk, f, hf, hp, hn⟩
      · exact Or.inl h1
      · exact Or.inr ⟨c', by simp [hc'], hk, f, hf, hp, hn⟩

/-- An adjacency witness implies that the getter is one of the module's
functions. -/
theorem mem_funcsOf_of_adjacent (L : List Item) (d : String) (g : FuncOp)
    (h : adjacentFuncGetter L d g = true) : g ∈ funcsOf L := by
  induction L with
  | nil => simp [adjacentFuncGetter] at h
  | cons it rest ih =>
    cases it with
    | func a =>
      cases rest with
      | nil => simp [adjacentFuncGetter] at h
      | cons it2 rest2 =>
        cases it2 with
        | func b =>
          simp only [adjacentFuncGetter, Bool.or_eq_true,
            Bool.and_eq_true] at h
          rcases h with ⟨_, hb⟩ | htail
          · have hb' : b = g := by simpa using hb
            subst hb'
            simp [funcsOf]
          · have := ih htail
            simp only [funcsOf] at this ⊢
            simpa using Or.inr (by simpa using this)
        | global gl =>
          have := ih (by simpa [adjacentFuncGetter] using h)
          simp only [funcsOf] at this ⊢
          simpa using Or.inr (by simpa using this)
        | child c =>
          have := ih (by simpa [adjacentFuncGetter] using h)
          simp only [funcsOf] at this ⊢
          simpa using Or.inr (by simpa using this)
    | global gl =>
      have := ih (by simpa [adjacentFuncGetter] using h)
      simpa [funcsOf] using this
    | child c =>
      have := ih (by simpa [adjacentFuncGetter] using h)
      simpa [funcsOf] using this

/-- The step taken by the inner loop on a payload-carrying function whose
stub lookup fails: the module is unchanged, the failure flag is raised, and
the loop continues with the remaining functions. -/
theorem processChildFuncs_failStep (m : TopModule) (f : FuncOp)
    (rest : List FuncOp) (failed : Bool) (b : Bytes)
    (hattr : f.attrs.get kCubinAttrName = some (AttrValue.str b))
    (hno : lookupFuncItems m.items f.name = none) :
    processChildFuncs m (f :: rest) failed = processChildFuncs m rest true := by
  simp only [processChildFuncs, hattr]
  rw [generate_eq_of_no_lookup m f b hno]
  simp

/-- The getter emitted by a successful `generate` is among the result's
functions. -/
theorem accessor_mem_generate (m : TopModule) (f : FuncOp) (blob : Bytes)
    (s : FuncOp) (h : lookupFuncItems m.items f.name = some s) :
    accessorFor s.name ∈ funcsOf (generate m f blob).1.items := by
  have hn := lookupFuncItems_name m.items f.name s h
  have h' : lookupFuncItems m.items s.name = some s := by rw [hn]; exact h
  have hadj : adjacentFuncGetter (generate m f blob).1.items s.name
      (accessorFor s.name) = true := by
    rw [generate_eq_of_lookup m f blob s h]
    exact adjacentFuncGetter_cons _ _ _ _
      (adjacent_after_transform m.items s.name s _ _ _ h')
  exact mem_funcsOf_of_adjacent _ _ _ hadj

/-! Claims. -/

/-- Claim C1, counterexample.  The claim states that after an unresolved
donor is detected no further source function is processed.  On the concrete
module `exTop` the first kernel function `f` has no matching stub and the
pass signals failure, yet the second kernel function `g` of the same module
is still processed: its getter `g_cubin` and its storage global
`g_cubin_cst` (holding `g`'s payload) exist after the run, so a further
source function was processed after the unresolved donor. -/
theorem C1_counterexample :
    lookupFuncItems exTop.items srcF.name = none ∧
    (runOnModule exTop).2 = true ∧
    ("g" ++ kCubinGetterSuffix) ∈ funcNamesOf (runOnModule exTop).1.items ∧
    findGlobalItems (runOnModule exTop).1.items ("g" ++ kCubinStorageSuffix)
      = some { name := "g" ++ kCubinStorageSuffix, value := [2] } := by
  decide

/-- Claim C1, amended: when a source function carrying the payload
attribute has no function of the same name in the top-level module, the
pass signals a pass-level failure, but it does not abort: the failing
function contributes no change to the module, and the pass continues with
the remaining source functions of the same (and of any later) kernel
module. -/
theorem C1_amended_no_abort (m : TopModule) (f : FuncOp) (rest : List FuncOp)
    (failed : Bool) (b : Bytes)
    (hattr : f.attrs.get kCubinAttrName = some (AttrValue.str b))
    (hno : m.lookupFunc f.name = none) :
    generate m f b = (m, true) ∧
    processChildFuncs m (f :: rest) failed = processChildFuncs m rest true :=
  ⟨generate_eq_of_no_lookup m f b hno,
   processChildFuncs_failStep m f rest failed b hattr hno⟩

/-- Witness for the amended claim C1 at a concrete input. -/
theorem C1_witness :
    generate exTop srcF [1] = (exTop, true) ∧
    processChildFuncs exTop [srcF, srcG] false
      = processChildFuncs exTop [srcG] true :=
  C1_amended_no_abort exTop srcF [srcG] false [1] (by decide) (by decide)

/-- Claim C2: for a transformed source function with donor `s`, the emitted
getter's name is the donor's name followed by the fixed getter suffix
`_cubin`, and the emitted global constant's name is the donor's name
followed by the fixed storage suffix `_cubin_cst`; both are derived from
the donor's name alone. -/
theorem C2_names (m : TopModule) (f : FuncOp) (blob : Bytes) (s : FuncOp)
    (h : m.lookupFunc f.name = some s) :
    kCubinGetterSuffix = "_cubin" ∧
    kCubinStorageSuffix = "_cubin_cst" ∧
    (accessorFor s.name).name = s.name ++ kCubinGetterSuffix ∧
    accessorFor s.name ∈ funcsOf (generate m f blob).1.items ∧
    ∃ g, findGlobalItems (generate m f blob).1.items
        (s.name ++ kCubinStorageSuffix) = some g ∧
      g.name = s.name ++ kCubinStorageSuffix := by
  refine ⟨rfl, rfl, rfl, accessor_mem_generate m f blob s h, ?_⟩
  rw [generate_eq_of_lookup m f blob s h]
  refine ⟨{ name := s.name ++ kCubinStorageSuffix, value := blob }, ?_, rfl⟩
  simp [findGlobalItems]

/-- Witness for claim C2 at a concrete input. -/
theorem C2_witness :
    kCubinGetterSuffix = "_cubin" ∧
    kCubinStorageSuffix = "_cubin_cst" ∧
    (accessorFor stubK.name).name = stubK.name ++ kCubinGetterSuffix ∧
    accessorFor stubK.name ∈ funcsOf (generate wm srcK [5, 6]).1.items ∧
    ∃ g, findGlobalItems (generate wm srcK [5, 6]).1.items
        (stubK.name ++ kCubinStorageSuffix) = some g ∧
      g.name = stubK.name ++ kCubinStorageSuffix :=
  C2_names wm srcK [5, 6] stubK (by decide)

/-- Claim C3: the byte string stored in the emitted global constant equals,
byte for byte, the payload attribute's value passed to `generate`. -/
theorem C3_payload_roundtrip (m : TopModule) (f : FuncOp) (blob : Bytes)
    (s : FuncOp) (h : m.lookupFunc f.name = some s) :
    (findGlobalItems (generate m f blob).1.items
        (s.name ++ kCubinStorageSuffix)).map GlobalOp.value = some blob := by
  rw [generate_eq_of_lookup m f blob s h]
  simp [findGlobalItems]

/-- Witness for claim C3 at a concrete input. -/
theorem C3_witness :
    (findGlobalItems (generate wm srcK [7, 8]).1.items
        (stubK.name ++ kCubinStorageSuffix)).map GlobalOp.value
      = some [7, 8] :=
  C3_payload_roundtrip wm srcK [7, 8] stubK (by decide)

/-- Claim C4: after a successful `generate`, the donor carries the
cross-link attribute under the fixed key `nvvm.cubingetter`, its value is a
symbolic reference to the getter's name, and (under the spec's
no-collision precondition on the getter name) that reference resolves by
symbol lookup to exactly the getter emitted for this donor. -/
theorem C4_link (m : TopModule) (f : FuncOp) (blob : Bytes) (s : FuncOp)
    (h : m.lookupFunc f.name = some s)
    (hfresh : hasSymbolNamed m.items (s.name ++ kCubinGetterSuffix) = false) :
    ∃ s', lookupFuncItems (generate m f blob).1.items s.name = some s' ∧
      s'.attrs.get kCubinGetterAttrName
        = some (AttrValue.symbolRef (s.name ++ kCubinGetterSuffix)) ∧
      lookupFuncItems (generate m f blob).1.items
          (s.name ++ kCubinGetterSuffix)
        = some (accessorFor s.name) := by
  have hn := lookupFuncItems_name m.items f.name s h
  have h' : lookupFuncItems m.items s.name = some s := by rw [hn]; exact h
  have hsne : s.name ++ kCubinStorageSuffix ≠ s.name :=
    append_ne_self s.name kCubinStorageSuffix (by decide)
  have hgne : (accessorFor s.name).name ≠ s.name :=
    append_ne_self s.name kCubinGetterSuffix (by decide)
  have hsg : s.name ++ kCubinStorageSuffix ≠ s.name ++ kCubinGetterSuffix :=
    append_ne_append s.name kCubinStorageSuffix kCubinGetterSuffix (by decide)
  rw [generate_eq_of_lookup m f blob s h]
  refine ⟨{ s with attrs := s.attrs.set kCubinGetterAttrName (AttrValue.symbolRef (s.name ++ kCubinGetterSuffix)) }, ?_, ?_, ?_⟩
  · simp only [lookupFuncItems, Item.symName]
    rw [if_neg hsne]
    exact lookup_donor_after m.items s.name s (accessorFor s.name) _ _ h'
  · exact AttrMap.get_set s.attrs _ _
  · simp only [lookupFuncItems, Item.symName]
    rw [if_neg hsg]
    exact lookup_getter_after m.items s.name s (accessorFor s.name) _ _ h'
      hfresh hgne

/-- Witness for claim C4 at a concrete input. -/
theorem C4_witness :
    ∃ s', lookupFuncItems (generate wm srcK [7, 8]).1.items stubK.name
        = some s' ∧
      s'.attrs.get kCubinGetterAttrName
        = some (AttrValue.symbolRef (stubK.name ++ kCubinGetterSuffix)) ∧
      lookupFuncItems (generate wm srcK [7, 8]).1.items
          (stubK.name ++ kCubinGetterSuffix)
        = some (accessorFor stubK.name) :=
  C4_link wm srcK [7, 8] stubK (by decide) (by decide)

/-- Claim C5: the getter emitted for donor `s` takes zero arguments,
returns the byte-pointer type, consists of a single block computing the
address of the first element of the storage global and returning it, and is
inserted immediately after the donor in the module's item order. -/
theorem C5_accessor_shape (m : TopModule) (f : FuncOp) (blob : Bytes)
    (s : FuncOp) (h : m.lookupFunc f.name = some s) :
    (accessorFor s.name).numArgs = 0 ∧
    (accessorFor s.name).results = [LLVMTy.i8ptr] ∧
    (accessorFor s.name).body
      = FuncBody.returnAddrOfFirstElem (s.name ++ kCubinStorageSuffix) ∧
    adjacentFuncGetter (generate m f blob).1.items s.name
      (accessorFor s.name) = true := by
  refine ⟨rfl, rfl, rfl, ?_⟩
  have hn := lookupFuncItems_name m.items f.name s h
  have h' : lookupFuncItems m.items s.name = some s := by rw [hn]; exact h
  rw [generate_eq_of_lookup m f blob s h]
  exact adjacentFuncGetter_cons _ _ _ _
    (adjacent_after_transform m.items s.name s _ _ _ h')

/-- Witness for claim C5 at a concrete input. -/
theorem C5_witness :
    (accessorFor stubK.name).numArgs = 0 ∧
    (accessorFor stubK.name).results = [LLVMTy.i8ptr] ∧
    (accessorFor stubK.name).body
      = FuncBody.returnAddrOfFirstElem (stubK.name ++ kCubinStorageSuffix) ∧
    adjacentFuncGetter (generate wm srcK [7, 8]).1.items stubK.name
      (accessorFor stubK.name) = true :=
  C5_accessor_shape wm srcK [7, 8] stubK (by decide)

/-- Claim C6: after the pass runs, no child module flagged kernel-holding
remains among the top-level module's children (in particular, a flagged
child with zero payload-bearing functions is also removed, since the
characterisation holds for every input module). -/
theorem C6_kernel_modules_erased (m : TopModule) :
    ((childrenOf (runOnModule m).1.items).all
      fun c => !(isKernelModule c)) = true := by
  have hrc := runAux_children (childrenOf m.items) m [] false rfl (by simp)
  have hrw : childrenOf (runOnModule m).1.items
      = (childrenOf m.items).filter (fun c => !(isKernelModule c)) := by
    simpa [runOnModule] using hrc
  rw [hrw]
  rw [List.all_eq_true]
  intro c hc
  simpa using (List.mem_filter.mp hc).2

/-- Claim C7: for a source function whose name has no matching function in
the top-level module, `generate` emits nothing and writes nothing: the
module is returned exactly unchanged, with only the failure signalled. -/
theorem C7_no_emission_on_error (m : TopModule) (f : FuncOp) (blob : Bytes)
    (hno : m.lookupFunc f.name = none) :
    generate m f blob = (m, true) :=
  generate_eq_of_no_lookup m f blob hno

/-- Witness for claim C7 at a concrete input. -/
theorem C7_witness : generate wm srcF [9] = (wm, true) :=
  C7_no_emission_on_error wm srcF [9] (by decide)

/-- Claim C8: child modules without the kernel-holding flag survive the
pass unmodified (the surviving children are exactly the unflagged ones, in
order and with unchanged contents), and every global or getter present
after the run either pre-existed or derives from a payload-bearing function
of a flagged child — never from an unflagged child's contents. -/
theorem C8_untouched (m : TopModule) :
    childrenOf (runOnModule m).1.items
        = (childrenOf m.items).filter (fun c => !(isKernelModule c)) ∧
    (∀ g ∈ globalsOf (runOnModule m).1.items,
        g ∈ globalsOf m.items ∨
          ∃ c ∈ childrenOf m.items, isKernelModule c = true ∧
            ∃ f ∈ c.funcs, hasPayload f = true ∧
              g.name = f.name ++ kCubinStorageSuffix) ∧
    (∀ x ∈ funcNamesOf (runOnModule m).1.items,
        x ∈ funcNamesOf m.items ∨
          ∃ c ∈ childrenOf m.items, isKernelModule c = true ∧
            ∃ f ∈ c.funcs, hasPayload f = true ∧
              x = f.name ++ kCubinGetterSuffix) := by
  refine ⟨?_, ?_, ?_⟩
  · simpa [runOnModule] using
      runAux_children (childrenOf m.items) m [] false rfl (by simp)
  · intro g hg
    exact runAux_globals (childrenOf m.items) m false g hg
  · intro x hx
    exact runAux_funcNames (childrenOf m.items) m false x hx

/-- Witness for claim C8 at a concrete input: the storage global present
after running the pass on `wm8` is attributed to the flagged child. -/
theorem C8_witness :
    ({ name := "k_cubin_cst", value := [7, 8] } : GlobalOp)
        ∈ globalsOf (runOnModule wm8).1.items ∧
    (({ name := "k_cubin_cst", value := [7, 8] } : GlobalOp)
        ∈ globalsOf wm8.items ∨
      ∃ c ∈ childrenOf wm8.items, isKernelModule c = true ∧
        ∃ f ∈ c.funcs, hasPayload f = true ∧
          ({ name := "k_cubin_cst", value := [7, 8] } : GlobalOp).name
            = f.name ++ kCubinStorageSuffix) :=
  ⟨by decide, (C8_untouched wm8).2.1 _ (by decide)⟩

/-- Claim C9: when donor resolution fails for one source function, the pass
continues with the remaining payload-carrying functions, and it still
erases every kernel-holding module (only unflagged children survive), so
the unresolved function's payload is discarded along with its module. -/
theorem C9_continue_and_discard (m : TopModule) (f : FuncOp)
    (rest : List FuncOp) (failed : Bool) (b : Bytes)
    (hattr : f.attrs.get kCubinAttrName = some (AttrValue.str b))
    (hno : m.lookupFunc f.name = none) :
    processChildFuncs m (f :: rest) failed = processChildFuncs m rest true ∧
    childrenOf (runOnModule m).1.items
      = (childrenOf m.items).filter (fun c => !(isKernelModule c)) :=
  ⟨processChildFuncs_failStep m f rest failed b hattr hno,
   by simpa [runOnModule] using
     runAux_children (childrenOf m.items) m [] false rfl (by simp)⟩

/-- Witness for claim C9 at a concrete input. -/
theorem C9_witness :
    processChildFuncs exTop [srcF, srcG] true
      = processChildFuncs exTop [srcG] true ∧
    childrenOf (runOnModule exTop).1.items
      = (childrenOf exTop.items).filter (fun c => !(isKernelModule c)) :=
  C9_continue_and_discard exTop srcF [srcG] true [1] (by decide) (by decide)

/-- Claim C10: donor resolution accepts any same-named function of the
top-level module without checking that it is a body-less declaration: with
a donor that has a body, `generate` still succeeds (no failure is
signalled) and emits the getter for it. -/
theorem C10_bodied_donor (m : TopModule) (f : FuncOp) (blob : Bytes)
    (s : FuncOp) (k : Nat)
    (h : m.lookupFunc f.name = some s)
    (_hbody : s.body = FuncBody.someOps k) :
    (generate m f blob).2 = false ∧
    accessorFor s.name ∈ funcsOf (generate m f blob).1.items := by
  refine ⟨?_, accessor_mem_generate m f blob s h⟩
  rw [generate_eq_of_lookup m f blob s h]

/-- Witness for claim C10 at a concrete input: the parent function `k` has
a body, yet it is accepted as the donor. -/
theorem C10_witness :
    (generate wmBodied srcK [7, 8]).2 = false ∧
    accessorFor bodiedK.name
      ∈ funcsOf (generate wmBodied srcK [7, 8]).1.items :=
  C10_bodied_donor wmBodied srcK [7, 8] bodiedK 9 (by decide) (by decide)

end GenCubin
